import Mathlib

/-
Verification of the transcript-classification core of the
Bainum-Project-Backend repository.

The embedding models JavaScript strings as lists of natural-number code
points.  The keyword matcher of src/lib/transcriptProcessor.js builds, for
every keyword, the regular expression \bK\b (with every whitespace run of a
multi-word keyword K replaced by \s plus) and runs it with the global and
ignore-case flags; that machinery is embedded below as a small pattern
language (literal characters and whitespace-run elements) together with a
left-to-right non-overlapping scan that performs the word-boundary tests of
the JavaScript regex engine.  The pipeline of
src/controllers/classroomWhisperController.js (identical in the unnamed
rev-ai controller) is embedded as a total function parameterised by the
outcome of the external semantic (RAG) classifier and by the external
hybrid score combiner.
-/

namespace Bainum

/-- Code points of a string literal, the model of a JavaScript string
(all strings appearing in the repository are ASCII). -/
def enc (s : String) : List Nat := s.data.map Char.toNat

/-- The JavaScript regex word-character class [A-Za-z0-9_], used by the
boundary assertion \b. -/
def isWordCharB (n : Nat) : Bool :=
  (48 ≤ n && n ≤ 57) || (65 ≤ n && n ≤ 90) || (97 ≤ n && n ≤ 122) || n == 95

/-- The JavaScript regex whitespace class \s (space, tab, line
terminators, and the Unicode space separators). -/
def isSpaceCharB (n : Nat) : Bool :=
  n == 32 || n == 9 || n == 10 || n == 11 || n == 12 || n == 13 || n == 160 ||
  n == 5760 || (8192 ≤ n && n ≤ 8202) || n == 8232 || n == 8233 ||
  n == 8239 || n == 8287 || n == 12288 || n == 65279

/-- ASCII lowering of one code point: the model of the comparison done by
the regex ignore-case flag.  In non-unicode mode the ECMAScript
Canonicalize operation never folds a code point at or above 128 into an
ASCII one, so for the ASCII-only keywords of this repository two code
points match case-insensitively exactly when this ASCII lowering makes
them equal. -/
def lowerChar (n : Nat) : Nat := if 65 ≤ n ∧ n ≤ 90 then n + 32 else n

/-- Unicode lowercase mapping of one code point: the model of
String.prototype.toLowerCase.  Exact on ASCII and on the Latin-1
uppercase letters, and includes the only two Unicode mappings whose
output contains ASCII, the Kelvin sign U+212A (to k) and the dotted
capital I U+0130 (to i followed by combining dot above U+0307).  All
remaining Unicode mappings send non-ASCII code points to non-ASCII code
points, which are neither word characters, whitespace, nor characters of
any taxonomy keyword, so leaving them in place is observationally
equivalent for the keyword counting modeled here. -/
def lowerCodePoint (n : Nat) : List Nat :=
  if 65 ≤ n ∧ n ≤ 90 then [n + 32]
  else if 192 ≤ n ∧ n ≤ 222 ∧ n ≠ 215 then [n + 32]
  else if n = 8490 then [107]
  else if n = 304 then [105, 775]
  else [n]

/-- String.prototype.toLowerCase over a whole string. -/
def jsToLower (s : List Nat) : List Nat := s.flatMap lowerCodePoint

/-- A JavaScript value passed as a transcript: either a string or some
non-string value (null, undefined, a number, an object). -/
inductive JsVal where
  | str (s : List Nat)
  | nonStr
deriving DecidableEq, Repr

/-- One element of a compiled keyword pattern: a literal character, or the
\s plus element produced by keyword.replace over whitespace runs. -/
inductive PatElem where
  | lit (c : Nat)
  | spaces
deriving DecidableEq, Repr

/-- Compile a keyword into its pattern: every maximal whitespace run
becomes one spaces element (the source replaces each whitespace run by \s
plus), every other character is a literal. -/
def compile : List Nat → List PatElem
  | [] => []
  | [c] => if isSpaceCharB c then [PatElem.spaces] else [PatElem.lit c]
  | c :: c2 :: cs =>
    if isSpaceCharB c && isSpaceCharB c2 then compile (c2 :: cs)
    else (if isSpaceCharB c then PatElem.spaces else PatElem.lit c) :: compile (c2 :: cs)

/-- Length of the leading whitespace run of a text. -/
def countLeadingSpaces : List Nat → Nat
  | [] => 0
  | c :: cs => if isSpaceCharB c then countLeadingSpaces cs + 1 else 0

/-- Try to match a pattern against a prefix of the text, returning the
number of characters consumed.  Literals compare case-insensitively (the
regexes carry the ignore-case flag); a spaces element consumes a maximal
non-empty whitespace run, which is exact for the patterns at hand because
a spaces element is never followed by a whitespace literal. -/
def matchElems : List PatElem → List Nat → Option Nat
  | [], _ => some 0
  | PatElem.lit _ :: _, [] => none
  | PatElem.lit c :: ps, t :: ts =>
    if lowerChar t == lowerChar c then (matchElems ps ts).map (· + 1) else none
  | PatElem.spaces :: ps, ts =>
    let n := countLeadingSpaces ts
    if n = 0 then none else (matchElems ps (ts.drop n)).map (· + n)

/-- The character just before a position, if any. -/
def prevAt (t : List Nat) (pos : Nat) : Option Nat :=
  if pos = 0 then none else t[pos - 1]?

/-- Word-character test lifted to an optional character; the absent
character at either end of the text counts as a non-word character. -/
def isWordOpt : Option Nat → Bool
  | none => false
  | some c => isWordCharB c

/-- Try to match \b pattern \b at one position of the text: the pattern
must match a prefix of the remaining text and both boundary assertions
must hold (a boundary separates a word character from a non-word
character or a text end). -/
def matchAt (pat : List PatElem) (t : List Nat) (pos : Nat) : Option Nat :=
  match matchElems pat (t.drop pos) with
  | none => none
  | some L =>
    if isWordOpt (prevAt t pos) == isWordOpt t[pos]? then none
    else if isWordOpt t[pos + L - 1]? == isWordOpt t[pos + L]? then none
    else some L

/-- Left-to-right scan of the global regex: at each position try the
pattern; on a match record (start, length) and resume after it, otherwise
advance one character.  The fuel argument is only a termination measure. -/
def scanFrom (pat : List PatElem) (t : List Nat) : Nat → Nat → List (Nat × Nat)
  | 0, _ => []
  | fuel + 1, pos =>
    if pos < t.length then
      match matchAt pat t pos with
      | some L => (pos, L) :: scanFrom pat t fuel (pos + max L 1)
      | none => scanFrom pat t fuel (pos + 1)
    else []

/-- All non-overlapping matches of a compiled keyword pattern in a text,
as (start, length) pairs in increasing position order: the model of
running a global regex over the text. -/
def jsMatches (pat : List PatElem) (t : List Nat) : List (Nat × Nat) :=
  scanFrom pat t (t.length + 1) 0

/-- The four developmental-talk categories, in the iteration order of
Object.keys over the KEYWORDS object. -/
inductive Cat where
  | science
  | social
  | literature
  | language
deriving DecidableEq, Repr

/-- Iteration order of the categories. -/
def catList : List Cat := [Cat.science, Cat.social, Cat.literature, Cat.language]

/-- Position of a category in the iteration order. -/
def catRank : Cat → Nat
  | Cat.science => 0
  | Cat.social => 1
  | Cat.literature => 2
  | Cat.language => 3

/-- The static keyword taxonomy, transcribed list for list (duplicates
included) from the KEYWORDS object of src/lib/transcriptProcessor.js. -/
def KEYWORDS : Cat → List (List Nat)
  | Cat.science =>
    [enc "experiment", enc "hypothesis", enc "observe", enc "predict", enc "measure",
     enc "test", enc "data", enc "result", enc "science", enc "scientist",
     enc "discover", enc "investigate", enc "analyze", enc "research", enc "study",
     enc "evidence", enc "theory", enc "fact", enc "prove", enc "conclusion",
     enc "question", enc "answer", enc "why", enc "how", enc "what", enc "when",
     enc "where", enc "because", enc "reason", enc "cause", enc "effect",
     enc "change", enc "grow", enc "plant", enc "animal", enc "nature",
     enc "weather", enc "water", enc "air", enc "earth", enc "space", enc "star",
     enc "planet", enc "moon", enc "sun", enc "light", enc "dark", enc "hot",
     enc "cold", enc "big", enc "small", enc "heavy", enc "light", enc "fast",
     enc "slow", enc "up", enc "down", enc "inside", enc "outside", enc "color",
     enc "shape", enc "size", enc "number", enc "count", enc "more", enc "less",
     enc "same", enc "different"]
  | Cat.social =>
    [enc "friend", enc "share", enc "help", enc "together", enc "feelings",
     enc "happy", enc "sad", enc "angry", enc "excited", enc "scared",
     enc "worried", enc "proud", enc "sorry", enc "thank", enc "please",
     enc "welcome", enc "hello", enc "goodbye", enc "play", enc "game", enc "fun",
     enc "laugh", enc "smile", enc "cry", enc "hug", enc "love", enc "care",
     enc "kind", enc "nice", enc "mean", enc "fair", enc "unfair", enc "right",
     enc "wrong", enc "good", enc "bad", enc "yes", enc "no", enc "maybe",
     enc "okay", enc "sure", enc "family", enc "mom", enc "dad", enc "parent",
     enc "brother", enc "sister", enc "baby", enc "child", enc "people",
     enc "person", enc "group", enc "team", enc "class", enc "school",
     enc "teacher", enc "student", enc "learn", enc "teach", enc "listen",
     enc "talk", enc "say", enc "tell", enc "ask", enc "answer",
     enc "understand", enc "know", enc "think", enc "remember", enc "forget",
     enc "want", enc "need", enc "like", enc "dislike"]
  | Cat.literature =>
    [enc "story", enc "character", enc "beginning", enc "ending", enc "imagine",
     enc "pretend", enc "make-believe", enc "fairy tale", enc "tale", enc "book",
     enc "read", enc "page", enc "chapter", enc "title", enc "author",
     enc "writer", enc "write", enc "draw", enc "picture", enc "illustration",
     enc "drawing", enc "art", enc "create", enc "make", enc "once upon a time",
     enc "once", enc "long ago", enc "happily ever after", enc "the end",
     enc "begin", enc "start", enc "finish", enc "end", enc "first", enc "last",
     enc "next", enc "then", enc "after", enc "before", enc "prince",
     enc "princess", enc "king", enc "queen", enc "castle", enc "dragon",
     enc "magic", enc "wizard", enc "witch", enc "fairy", enc "giant",
     enc "dwarf", enc "hero", enc "villain", enc "adventure", enc "journey",
     enc "travel", enc "visit", enc "go", enc "come", enc "arrive", enc "leave",
     enc "return", enc "home", enc "place", enc "where", enc "there", enc "here",
     enc "far", enc "near", enc "find", enc "lose", enc "search", enc "look",
     enc "see", enc "watch", enc "show", enc "hide", enc "appear",
     enc "disappear", enc "magic", enc "wish", enc "dream", enc "hope"]
  | Cat.language =>
    [enc "word", enc "sentence", enc "speak", enc "listen", enc "communicate",
     enc "talk", enc "say", enc "tell", enc "speech", enc "language",
     enc "voice", enc "sound", enc "noise", enc "quiet", enc "loud", enc "soft",
     enc "whisper", enc "shout", enc "yell", enc "call", enc "name", enc "label",
     enc "describe", enc "explain", enc "mean", enc "meaning", enc "understand",
     enc "comprehend", enc "know", enc "learn", enc "teach", enc "question",
     enc "ask", enc "answer", enc "reply", enc "respond", enc "conversation",
     enc "discuss", enc "chat", enc "talk", enc "speak", enc "say", enc "tell",
     enc "speech", enc "pronounce", enc "pronunciation", enc "letter",
     enc "alphabet", enc "read", enc "write", enc "spell", enc "spelling",
     enc "grammar", enc "noun", enc "verb", enc "adjective", enc "sentence",
     enc "phrase", enc "paragraph", enc "story", enc "book", enc "dictionary",
     enc "vocabulary", enc "word", enc "term", enc "expression", enc "idiom",
     enc "phrase"]

/-- Per-category occurrence counts, the CategoryCounts object of the
source. -/
structure CategoryCounts where
  science : Nat
  social : Nat
  literature : Nat
  language : Nat
deriving DecidableEq, Repr

/-- Field lookup of a CategoryCounts by category. -/
def countOf : Cat → CategoryCounts → Nat
  | Cat.science, c => c.science
  | Cat.social, c => c.social
  | Cat.literature, c => c.literature
  | Cat.language, c => c.language

/-- Total number of matches of the keywords of one category in a text:
the amount forEach over that category adds to its counter. -/
def countFor (cat : Cat) (t : List Nat) : Nat :=
  ((KEYWORDS cat).map (fun k => (jsMatches (compile k) t).length)).sum

/-- Blank test: true when the value is a non-string, the empty string, or
a whitespace-only string — exactly the inputs the source guards return
early on (falsy transcript, non-string type, or empty trim). -/
def isBlank : JsVal → Bool
  | JsVal.nonStr => true
  | JsVal.str s => !(s.any fun c => !isSpaceCharB c)

/-- analyzeTranscript of src/lib/transcriptProcessor.js: zero counts for
blank or non-string input, otherwise the per-category match totals over
the toLowerCase-d transcript. -/
def analyzeTranscript (v : JsVal) : CategoryCounts :=
  match v with
  | JsVal.nonStr => ⟨0, 0, 0, 0⟩
  | JsVal.str s =>
    if s.any (fun c => !isSpaceCharB c) then
      let lower := jsToLower s
      ⟨countFor Cat.science lower, countFor Cat.social lower,
       countFor Cat.literature lower, countFor Cat.language lower⟩
    else ⟨0, 0, 0, 0⟩

/-- Per-category normalized scores, the object calculateScores returns;
scores are integers. -/
structure CategoryScores where
  scienceTalk : ℤ
  socialTalk : ℤ
  literatureTalk : ℤ
  languageDevelopment : ℤ
deriving DecidableEq, Repr

/-- Math.round on an exact rational: round half toward positive
infinity. -/
def jsRound (q : ℚ) : ℤ := ⌊q + 1 / 2⌋

/-- One normalized score: Math.min(100, Math.round(count / 20 * 100)),
with maxPerCategory = 20 as in the source. -/
def scoreOf (count : Nat) : ℤ :=
  min 100 (jsRound ((count : ℚ) / 20 * 100))

/-- calculateScores of src/lib/transcriptProcessor.js. -/
def calculateScores (counts : CategoryCounts) : CategoryScores :=
  ⟨scoreOf counts.science, scoreOf counts.social,
   scoreOf counts.literature, scoreOf counts.language⟩

/-- The regex metacharacters escaped by extractKeywordSegments:
. * + ? ^ $ { } ( ) | [ ] and the backslash. -/
def metaChars : List Nat := [46, 42, 43, 63, 94, 36, 123, 125, 40, 41, 124, 91, 93, 92]

/-- keyword.replace over the metacharacter class: prefix every
metacharacter with a backslash (92). -/
def escapeRegex (k : List Nat) : List Nat :=
  k.flatMap (fun c => if c ∈ metaChars then [92, c] else [c])

/-- One located keyword occurrence, the segment object pushed by
extractKeywordSegments. -/
structure Segment where
  text : List Nat
  category : Cat
  startIndex : Nat
  endIndex : Nat
deriving DecidableEq, Repr

/-- All segments one category contributes, in keyword-list order and, per
keyword, in match-position order; the matched text is the slice of the
original (not lower-cased) transcript. -/
def segsFor (cat : Cat) (s : List Nat) : List Segment :=
  (KEYWORDS cat).flatMap (fun k =>
    (jsMatches (compile (escapeRegex k)) s).map (fun m =>
      ⟨(s.drop m.1).take m.2, cat, m.1, m.1 + m.2⟩))

/-- extractKeywordSegments of src/lib/transcriptProcessor.js: empty for
blank or non-string input, otherwise the concatenation of the
per-category segment lists in category iteration order.  Matching runs
over the original transcript with the ignore-case flag. -/
def extractKeywordSegments (v : JsVal) : List Segment :=
  match v with
  | JsVal.nonStr => []
  | JsVal.str s =>
    if s.any (fun c => !isSpaceCharB c) then
      catList.flatMap (fun cat => segsFor cat s)
    else []

/-- Result of a successful ragClassifier.classifyWithSegments call: a
scores value (null modeled as none) and an optional segment list. -/
structure RagResult (ρ σ : Type) where
  scores : Option ρ
  segments : Option (List σ)

/-- The final evidence segments of a pipeline run: either the semantic
classifier segments or the lexical fallback. -/
inductive FinalSegs (σ : Type) where
  | rag (l : List σ)
  | lex (l : List Segment)

/-- Everything the controller assembles from the classification part of a
run (assessment fields that depend on the classification). -/
structure PipelineOutput (ρ σ : Type) where
  keywordCounts : CategoryCounts
  keywordScores : CategoryScores
  finalScores : CategoryScores
  ragScores : Option ρ
  segments : FinalSegs σ
  classificationMethod : String

/-- The classification pipeline of classroomWhisperController (lines
71 to 127; the unnamed rev-ai controller, lines 98 to 200, is
identical on these steps).  The external semantic classifier is
abstracted as ragOutcome — an error value models any exception thrown
inside the try block — and the external hybridScorer.combineScores as
the total function combine.  When the classifier throws, no assignment
of the try block survives, so ragScores and ragSegments are null and
finalScores keeps the keyword scores, exactly as in both controllers. -/
def runPipeline {ρ σ : Type} (transcript : Option (List Nat)) (ragEnabled : Bool)
    (ragOutcome : Except Unit (RagResult ρ σ))
    (combine : Option ρ → CategoryScores → CategoryScores) : PipelineOutput ρ σ :=
  let t : List Nat := transcript.getD []
  let keywordCounts := analyzeTranscript (JsVal.str t)
  let keywordScores := calculateScores keywordCounts
  let ragRuns := ragEnabled && t.any (fun c => !isSpaceCharB c)
  let step : Option ρ × Option (List σ) × CategoryScores :=
    if ragRuns then
      match ragOutcome with
      | Except.ok r => (r.scores, some (r.segments.getD []), combine r.scores keywordScores)
      | Except.error _ => (none, none, keywordScores)
    else (none, none, keywordScores)
  let finalSegs : FinalSegs σ :=
    match step.2.1 with
    | some (x :: xs) => FinalSegs.rag (x :: xs)
    | _ => FinalSegs.lex (extractKeywordSegments (JsVal.str t))
  { keywordCounts := keywordCounts
    keywordScores := keywordScores
    finalScores := step.2.2
    ragScores := step.1
    segments := finalSegs
    classificationMethod := if step.1.isSome then "hybrid" else "keyword-only" }

/-- Field lookup of a CategoryScores by category. -/
def scoreField : Cat → CategoryScores → ℤ
  | Cat.science, s => s.scienceTalk
  | Cat.social, s => s.socialTalk
  | Cat.literature, s => s.literatureTalk
  | Cat.language, s => s.languageDevelopment

/-- Closed form of one normalized score: with exact arithmetic the source
expression Math.min(100, Math.round(count / 20 * 100)) equals
min 100 (5 * count). -/
theorem scoreOf_eq (n : Nat) : scoreOf n = min 100 (5 * (n : ℤ)) := by
  unfold scoreOf jsRound
  have h : ((n : ℚ) / 20 * 100) = ((5 * (n : ℤ) : ℤ) : ℚ) := by push_cast; ring
  rw [h, Int.floor_int_add]
  norm_num

theorem scoreField_calculate (c : Cat) (counts : CategoryCounts) :
    scoreField c (calculateScores counts) = scoreOf (countOf c counts) := by
  cases c <;> rfl

/-- CLAIM C2.  The normalizer computes each score as
min(100, round(count / 20 * 100)) with the single shared constant 20 for
all four categories; the result is an integer in [0, 100]; a zero count
yields 0; a count at or beyond 20 clamps at 100. -/
theorem normalizer_formula_bounds (counts : CategoryCounts) (c : Cat) :
    scoreField c (calculateScores counts)
      = min 100 (jsRound ((countOf c counts : ℚ) / 20 * 100))
    ∧ 0 ≤ scoreField c (calculateScores counts)
    ∧ scoreField c (calculateScores counts) ≤ 100
    ∧ (countOf c counts = 0 → scoreField c (calculateScores counts) = 0)
    ∧ (20 ≤ countOf c counts → scoreField c (calculateScores counts) = 100) := by
  rw [scoreField_calculate]
  refine ⟨rfl, ?_, ?_, ?_, ?_⟩
  · rw [scoreOf_eq]; omega
  · rw [scoreOf_eq]; omega
  · intro h; rw [scoreOf_eq, h]; rfl
  · intro h; rw [scoreOf_eq]
    have : (20 : ℤ) ≤ (countOf c counts : ℤ) := by exact_mod_cast h
    omega

/-- Witness for C2: concrete zero count and concrete saturating count. -/
theorem normalizer_formula_bounds_w :
    scoreField Cat.science (calculateScores ⟨0, 0, 25, 20⟩) = 0
    ∧ scoreField Cat.language (calculateScores ⟨0, 0, 25, 20⟩) = 100 :=
  ⟨(normalizer_formula_bounds ⟨0, 0, 25, 20⟩ Cat.science).2.2.2.1 rfl,
   (normalizer_formula_bounds ⟨0, 0, 25, 20⟩ Cat.language).2.2.2.2 (by decide)⟩

/-- CLAIM C8.  The normalizer is monotone in each category count and
saturates: a count at or beyond 20 scores exactly 100. -/
theorem normalizer_monotone_saturating (a b : CategoryCounts) (c : Cat) :
    (countOf c a ≤ countOf c b →
      scoreField c (calculateScores a) ≤ scoreField c (calculateScores b))
    ∧ (20 ≤ countOf c a → scoreField c (calculateScores a) = 100) := by
  rw [scoreField_calculate, scoreField_calculate, scoreOf_eq, scoreOf_eq]
  constructor
  · intro h
    have : (countOf c a : ℤ) ≤ (countOf c b : ℤ) := by exact_mod_cast h
    omega
  · intro h
    have : (20 : ℤ) ≤ (countOf c a : ℤ) := by exact_mod_cast h
    omega

/-- Witness for C8 at concrete counts. -/
theorem normalizer_monotone_saturating_w :
    scoreField Cat.science (calculateScores ⟨20, 0, 0, 0⟩)
      ≤ scoreField Cat.science (calculateScores ⟨25, 7, 0, 0⟩)
    ∧ scoreField Cat.science (calculateScores ⟨20, 0, 0, 0⟩) = 100 :=
  ⟨(normalizer_monotone_saturating ⟨20, 0, 0, 0⟩ ⟨25, 7, 0, 0⟩ Cat.science).1 (by decide),
   (normalizer_monotone_saturating ⟨20, 0, 0, 0⟩ ⟨25, 7, 0, 0⟩ Cat.science).2 (by decide)⟩

/-- CLAIM C1.  When the semantic classifier throws (any error inside the
try block), the pipeline still returns a complete result: the final
scores equal the lexical keyword scores exactly, the classification
method is keyword-only, and no semantic scores are recorded. -/
theorem pipeline_rag_error_fallback {ρ σ : Type} (transcript : Option (List Nat))
    (ragEnabled : Bool) (combine : Option ρ → CategoryScores → CategoryScores) :
    (runPipeline (σ := σ) transcript ragEnabled (Except.error ()) combine).finalScores
      = calculateScores (analyzeTranscript (JsVal.str (transcript.getD [])))
    ∧ (runPipeline (σ := σ) transcript ragEnabled (Except.error ()) combine).classificationMethod
      = "keyword-only"
    ∧ (runPipeline (σ := σ) transcript ragEnabled (Except.error ()) combine).ragScores = none := by
  unfold runPipeline
  by_cases h : (ragEnabled && (transcript.getD []).any fun c => !isSpaceCharB c) = true <;>
    simp [h]

/-- CLAIM C5.  The semantic step runs only when it is enabled and the
transcript is non-empty after trimming: otherwise the output does not
depend on the semantic outcome at all and equals the lexical-only
output.  The lexical counts and scores are always computed, whatever the
gate decides, even for an empty transcript. -/
theorem pipeline_gating {ρ σ : Type} (transcript : Option (List Nat)) (ragEnabled : Bool)
    (out : Except Unit (RagResult ρ σ))
    (combine : Option ρ → CategoryScores → CategoryScores) :
    ((ragEnabled && (transcript.getD []).any fun c => !isSpaceCharB c) = false →
      runPipeline transcript ragEnabled out combine
        = runPipeline transcript ragEnabled (Except.error ()) combine)
    ∧ (runPipeline transcript ragEnabled out combine).keywordCounts
        = analyzeTranscript (JsVal.str (transcript.getD []))
    ∧ (runPipeline transcript ragEnabled out combine).keywordScores
        = calculateScores (analyzeTranscript (JsVal.str (transcript.getD [])))
    ∧ ((ragEnabled && (transcript.getD []).any fun c => !isSpaceCharB c) = true →
      ∀ r : RagResult ρ σ,
        (runPipeline transcript ragEnabled (Except.ok r) combine).ragScores = r.scores
        ∧ (runPipeline transcript ragEnabled (Except.ok r) combine).finalScores
            = combine r.scores
                (calculateScores (analyzeTranscript (JsVal.str (transcript.getD []))))) := by
  refine ⟨fun h => ?_, rfl, rfl, fun h r => ?_⟩
  · unfold runPipeline
    simp [h]
  · unfold runPipeline
    simp [h]

/-- Witness for C5: with the gate closed (empty transcript) a successful
semantic outcome changes nothing; with the gate open a successful
outcome is consumed. -/
theorem pipeline_gating_w :
    (runPipeline (ρ := Unit) (σ := Unit) none true
        (Except.ok ⟨some (), some [()]⟩) (fun _ s => s)
      = runPipeline none true (Except.error ()) (fun _ s => s))
    ∧ (runPipeline (ρ := Unit) (σ := Unit) (some (enc "magic")) true
        (Except.ok ⟨some (), some [()]⟩) (fun _ s => s)).ragScores = some () :=
  ⟨(pipeline_gating none true (Except.ok ⟨some (), some [()]⟩) (fun _ s => s)).1 (by decide),
   ((pipeline_gating (some (enc "magic")) true (Except.ok ⟨some (), some [()]⟩)
      (fun _ s => s)).2.2.2 (by decide) ⟨some (), some [()]⟩).1⟩

/-- CLAIM C7.  The final evidence segments are the semantic segments
exactly when the semantic step ran, succeeded and produced at least one
segment; in every other case they are the lexical locate output over the
same transcript. -/
theorem pipeline_segment_resolution {ρ σ : Type} (transcript : Option (List Nat))
    (ragEnabled : Bool) (outc : Except Unit (RagResult ρ σ))
    (combine : Option ρ → CategoryScores → CategoryScores) :
    (runPipeline transcript ragEnabled outc combine).segments =
      match outc with
      | Except.ok r =>
        if ((ragEnabled && (transcript.getD []).any fun c => !isSpaceCharB c)
            && !(r.segments.getD []).isEmpty) = true
        then FinalSegs.rag (r.segments.getD [])
        else FinalSegs.lex (extractKeywordSegments (JsVal.str (transcript.getD [])))
      | Except.error _ =>
        FinalSegs.lex (extractKeywordSegments (JsVal.str (transcript.getD []))) := by
  unfold runPipeline
  by_cases h : (ragEnabled && (transcript.getD []).any fun c => !isSpaceCharB c) = true
  · cases outc with
    | ok r =>
      cases hs : r.segments with
      | none => simp [h, hs]
      | some l => cases l <;> simp [h, hs]
    | error e => simp [h]
  · cases outc with
    | ok r =>
      cases hs : r.segments with
      | none => simp [h, hs]
      | some l => cases l <;> simp [h, hs]
    | error e => simp [h]

/-- CLAIM C4.  Non-string, empty, or whitespace-only input yields
all-zero counts from analyzeTranscript and an empty segment list from
extractKeywordSegments; both functions are total. -/
theorem blank_input_zero (v : JsVal)
    (h : v = JsVal.nonStr ∨ v = JsVal.str []
      ∨ ∃ s, v = JsVal.str s ∧ s.all isSpaceCharB = true) :
    analyzeTranscript v = ⟨0, 0, 0, 0⟩ ∧ extractKeywordSegments v = [] := by
  rcases h with h | h | ⟨s, h, hs⟩
  · subst h; exact ⟨rfl, rfl⟩
  · subst h; exact ⟨rfl, rfl⟩
  · subst h
    have hc : (s.any fun c => !isSpaceCharB c) = false := by
      rw [List.all_eq_true] at hs
      rw [List.any_eq_false]
      intro c hcm
      simp [hs c hcm]
    exact ⟨by simp [analyzeTranscript, hc], by simp [extractKeywordSegments, hc]⟩

/-- Witness for C4 at a concrete whitespace-only transcript. -/
theorem blank_input_zero_w :
    analyzeTranscript (JsVal.str (enc "  \t ")) = ⟨0, 0, 0, 0⟩
    ∧ extractKeywordSegments (JsVal.str (enc "  \t ")) = [] :=
  blank_input_zero (JsVal.str (enc "  \t "))
    (Or.inr (Or.inr ⟨enc "  \t ", rfl, by decide⟩))

theorem lowerChar_idem (n : Nat) : lowerChar (lowerChar n) = lowerChar n := by
  unfold lowerChar
  split_ifs <;> omega

theorem lowerCodePoint_lowerChar (n : Nat) :
    lowerCodePoint (lowerChar n) = lowerCodePoint n := by
  unfold lowerChar lowerCodePoint
  split_ifs <;> first | rfl | omega

theorem lowerCodePoint_ascii {n : Nat} (h : n < 128) :
    lowerCodePoint n = [lowerChar n] := by
  unfold lowerChar lowerCodePoint
  split_ifs <;> first | rfl | omega

theorem jsToLower_map_lower (s : List Nat) :
    jsToLower (s.map lowerChar) = jsToLower s := by
  induction s with
  | nil => rfl
  | cons c cs ih =>
    simp only [jsToLower, List.map_cons, List.flatMap_cons] at *
    rw [lowerCodePoint_lowerChar, ih]

/-- On ASCII text the Unicode lowercasing is plain per-character ASCII
lowering. -/
theorem jsToLower_ascii (s : List Nat) (h : ∀ c ∈ s, c < 128) :
    jsToLower s = s.map lowerChar := by
  induction s with
  | nil => rfl
  | cons c cs ih =>
    rw [List.forall_mem_cons] at h
    simp only [jsToLower, List.map_cons, List.flatMap_cons] at *
    rw [lowerCodePoint_ascii h.1, ih h.2]
    rfl

theorem isWord_lower (n : Nat) : isWordCharB (lowerChar n) = isWordCharB n := by
  unfold lowerChar
  split_ifs with h
  · have h1 : isWordCharB (n + 32) = true := by simp [isWordCharB]; omega
    have h2 : isWordCharB n = true := by simp [isWordCharB]; omega
    rw [h1, h2]
  · rfl

theorem isSpace_lower (n : Nat) : isSpaceCharB (lowerChar n) = isSpaceCharB n := by
  unfold lowerChar
  split_ifs with h
  · have h1 : isSpaceCharB (n + 32) = false := by simp [isSpaceCharB]; omega
    have h2 : isSpaceCharB n = false := by simp [isSpaceCharB]; omega
    rw [h1, h2]
  · rfl

theorem countLeadingSpaces_lower (ts : List Nat) :
    countLeadingSpaces (ts.map lowerChar) = countLeadingSpaces ts := by
  induction ts with
  | nil => rfl
  | cons c cs ih => simp [countLeadingSpaces, isSpace_lower, ih]

theorem countLeadingSpaces_le (ts : List Nat) : countLeadingSpaces ts ≤ ts.length := by
  induction ts with
  | nil => simp [countLeadingSpaces]
  | cons c cs ih =>
    simp only [countLeadingSpaces, List.length_cons]
    split <;> omega

/-- Matching is insensitive to lowering the text: the compared literals
are lower-normalized on both sides and the character classes are stable
under lowering. -/
theorem matchElems_lower (pat : List PatElem) :
    ∀ ts : List Nat, matchElems pat (ts.map lowerChar) = matchElems pat ts := by
  induction pat with
  | nil => intro ts; rfl
  | cons p ps ih =>
    intro ts
    cases p with
    | lit c =>
      cases ts with
      | nil => rfl
      | cons t ts => simp [matchElems, lowerChar_idem, ih]
    | spaces =>
      simp only [matchElems, countLeadingSpaces_lower]
      rw [← List.map_drop, ih]

theorem prevAt_lower (t : List Nat) (pos : Nat) :
    isWordOpt (prevAt (t.map lowerChar) pos) = isWordOpt (prevAt t pos) := by
  unfold prevAt
  split
  · rfl
  · rw [List.getElem?_map]
    cases t[pos - 1]? <;> simp [isWordOpt, isWord_lower]

theorem isWordOpt_map_lower (o : Option Nat) :
    isWordOpt (o.map lowerChar) = isWordOpt o := by
  cases o <;> simp [isWordOpt, isWord_lower]

theorem getWord_lower (t : List Nat) (i : Nat) :
    isWordOpt (t.map lowerChar)[i]? = isWordOpt t[i]? := by
  rw [List.getElem?_map, isWordOpt_map_lower]

theorem matchAt_lower (pat : List PatElem) (t : List Nat) (pos : Nat) :
    matchAt pat (t.map lowerChar) pos = matchAt pat t pos := by
  unfold matchAt
  rw [← List.map_drop, matchElems_lower]
  cases matchElems pat (t.drop pos) with
  | none => rfl
  | some L => simp [prevAt_lower, isWordOpt_map_lower]

theorem scanFrom_lower (pat : List PatElem) (t : List Nat) :
    ∀ fuel pos, scanFrom pat (t.map lowerChar) fuel pos = scanFrom pat t fuel pos := by
  intro fuel
  induction fuel with
  | zero => intro pos; rfl
  | succ f ih =>
    intro pos
    simp only [scanFrom, List.length_map, matchAt_lower]
    cases matchAt pat t pos <;> simp [ih]

/-- Case-insensitivity of the global scan: lowering the text changes no
match position or length. -/
theorem jsMatches_lower (pat : List PatElem) (t : List Nat) :
    jsMatches pat (t.map lowerChar) = jsMatches pat t := by
  unfold jsMatches
  rw [List.length_map, scanFrom_lower]

/-- A successful pattern match never consumes more characters than the
text has. -/
theorem matchElems_le (pat : List PatElem) :
    ∀ (ts : List Nat) (L : Nat), matchElems pat ts = some L → L ≤ ts.length := by
  induction pat with
  | nil =>
    intro ts L h
    simp [matchElems] at h
    omega
  | cons p ps ih =>
    intro ts L h
    cases p with
    | lit c =>
      cases ts with
      | nil => simp [matchElems] at h
      | cons t ts =>
        simp only [matchElems] at h
        split at h
        · cases hm : matchElems ps ts with
          | none => rw [hm] at h; simp at h
          | some L' =>
            rw [hm] at h
            simp at h
            have := ih ts L' hm
            simp [← h]
            omega
        · simp at h
    | spaces =>
      simp only [matchElems] at h
      split at h
      · simp at h
      · cases hm : matchElems ps (ts.drop (countLeadingSpaces ts)) with
        | none => rw [hm] at h; simp at h
        | some L' =>
          rw [hm] at h
          simp at h
          have h1 := ih _ L' hm
          rw [List.length_drop] at h1
          have h2 := countLeadingSpaces_le ts
          omega

/-- Every recorded match of the scan satisfies matchAt at its start. -/
theorem scanFrom_mem (pat : List PatElem) (t : List Nat) :
    ∀ (fuel pos p L : Nat), (p, L) ∈ scanFrom pat t fuel pos → matchAt pat t p = some L := by
  intro fuel
  induction fuel with
  | zero => intro pos p L h; simp [scanFrom] at h
  | succ f ih =>
    intro pos p L h
    simp only [scanFrom] at h
    split at h
    · cases hm : matchAt pat t pos with
      | none => rw [hm] at h; exact ih _ _ _ h
      | some L' =>
        rw [hm] at h
        rcases List.mem_cons.mp h with h | h
        · rw [Prod.mk.injEq] at h
          obtain ⟨h1, h2⟩ := h
          subst h1; subst h2
          exact hm
        · exact ih _ _ _ h
    · simp at h

/-- Matches of the scan never start before the scan position. -/
theorem scanFrom_ge (pat : List PatElem) (t : List Nat) :
    ∀ (fuel pos : Nat) (q : Nat × Nat), q ∈ scanFrom pat t fuel pos → pos ≤ q.1 := by
  intro fuel
  induction fuel with
  | zero => intro pos q h; simp [scanFrom] at h
  | succ f ih =>
    intro pos q h
    simp only [scanFrom] at h
    split at h
    · cases hm : matchAt pat t pos with
      | none =>
        rw [hm] at h
        have := ih _ _ h
        omega
      | some L =>
        rw [hm] at h
        rcases List.mem_cons.mp h with h | h
        · subst h; exact le_refl _
        · have := ih _ _ h
          omega
    · simp at h

/-- The matches of one global regex scan are in strictly increasing
position order. -/
theorem scanFrom_sorted (pat : List PatElem) (t : List Nat) :
    ∀ fuel pos, (scanFrom pat t fuel pos).Pairwise (fun a b => a.1 < b.1) := by
  intro fuel
  induction fuel with
  | zero => intro pos; simp [scanFrom]
  | succ f ih =>
    intro pos
    simp only [scanFrom]
    split
    · cases hm : matchAt pat t pos with
      | none => exact ih _
      | some L =>
        refine List.Pairwise.cons ?_ (ih _)
        intro q hq
        have := scanFrom_ge pat t f (pos + max L 1) q hq
        simp only
        omega
    · simp

theorem jsMatches_sorted (pat : List PatElem) (t : List Nat) :
    (jsMatches pat t).Pairwise (fun a b => a.1 < b.1) :=
  scanFrom_sorted pat t _ 0

/-- Unpacking a successful matchAt: the pattern matched a prefix of the
remaining text and both word-boundary assertions held. -/
theorem matchAt_some {pat : List PatElem} {t : List Nat} {pos L : Nat}
    (h : matchAt pat t pos = some L) :
    matchElems pat (t.drop pos) = some L
    ∧ isWordOpt (prevAt t pos) ≠ isWordOpt t[pos]?
    ∧ isWordOpt t[pos + L - 1]? ≠ isWordOpt t[pos + L]? := by
  unfold matchAt at h
  split at h
  · simp at h
  · rename_i L' hme
    split_ifs at h with hc1 hc2
    all_goals simp at h
    subst h
    refine ⟨hme, ?_, ?_⟩
    · intro hcon
      exact hc1 (by simp [hcon])
    · intro hcon
      exact hc2 (by simp [hcon])

theorem escape_id : ∀ k : List Nat, (∀ c ∈ k, c ∉ metaChars) → escapeRegex k = k := by
  intro k
  induction k with
  | nil => intro _; rfl
  | cons c cs ih =>
    intro h
    simp only [escapeRegex, List.flatMap_cons] at *
    rw [if_neg (h c (List.mem_cons_self ..))]
    simp only [List.cons_append, List.nil_append]
    rw [ih fun x hx => h x (List.mem_cons_of_mem _ hx)]

/-- No keyword of the taxonomy contains a regex metacharacter, so the
escaping done by extractKeywordSegments is the identity on every
keyword. -/
theorem keywords_no_meta (cat : Cat) : ∀ k ∈ KEYWORDS cat, ∀ c ∈ k, c ∉ metaChars := by
  cases cat <;> decide

theorem segsFor_category {cat : Cat} {s : List Nat} {g : Segment}
    (h : g ∈ segsFor cat s) : g.category = cat := by
  simp only [segsFor, List.mem_flatMap, List.mem_map] at h
  obtain ⟨k, _, m, _, rfl⟩ := h
  rfl

theorem length_segsFor (cat : Cat) (s : List Nat) :
    (segsFor cat s).length = countFor cat (s.map lowerChar) := by
  unfold segsFor countFor
  rw [List.length_flatMap]
  congr 1
  apply List.map_congr_left
  intro k hk
  simp only [Function.comp_apply]
  rw [List.length_map, escape_id k (keywords_no_meta cat k hk), jsMatches_lower]

theorem filter_segsFor (cat c : Cat) (s : List Nat) :
    (segsFor cat s).filter (fun g => g.category == c)
      = if cat = c then segsFor cat s else [] := by
  split_ifs with h
  · subst h
    rw [List.filter_eq_self]
    intro g hg
    simp [segsFor_category hg]
  · rw [List.filter_eq_nil_iff]
    intro g hg
    rw [segsFor_category hg]
    simp [h]

/-- Counterexample to C9 as stated: on the transcript tal followed by
the Kelvin sign U+212A, toLowerCase folds the Kelvin sign to k, so
analyzeTranscript counts the social keyword talk once, while the
ignore-case regex of extractKeywordSegments never folds a non-ASCII
code point into ASCII and finds no segment at all — the two functions
disagree on this input. -/
theorem counts_segments_counterexample :
    countOf Cat.social (analyzeTranscript (JsVal.str (enc "tal\u212A"))) = 1
    ∧ ((extractKeywordSegments (JsVal.str (enc "tal\u212A"))).filter
        (fun g => g.category == Cat.social)).length = 0
    ∧ ¬ (countOf Cat.social (analyzeTranscript (JsVal.str (enc "tal\u212A")))
        = ((extractKeywordSegments (JsVal.str (enc "tal\u212A"))).filter
            (fun g => g.category == Cat.social)).length) := by
  refine ⟨by decide, by decide, by decide⟩

/-- CLAIM C9 (amended).  For every transcript of ASCII code points and
every category, the count reported by analyzeTranscript equals the
number of segments of that category returned by extractKeywordSegments:
on ASCII text lower-casing the transcript first (analyzeTranscript) and
matching the original case-insensitively (extractKeywordSegments)
agree, and the escaping difference is the identity on the actual
taxonomy.  Outside ASCII the two diverge (see the counterexample). -/
theorem counts_match_segments_ascii (s : List Nat) (hA : ∀ c ∈ s, c < 128) (c : Cat) :
    countOf c (analyzeTranscript (JsVal.str s))
      = ((extractKeywordSegments (JsVal.str s)).filter
          (fun g => g.category == c)).length := by
  have hL : jsToLower s = s.map lowerChar := jsToLower_ascii s hA
  cases hb : (s.any fun ch => !isSpaceCharB ch) with
  | true =>
    simp only [analyzeTranscript, extractKeywordSegments, hb, if_true, hL]
    simp only [catList, List.flatMap_cons, List.flatMap_nil, List.append_nil,
      List.filter_append, List.length_append, filter_segsFor]
    cases c <;> simp [countOf, length_segsFor]
  | false =>
    simp only [analyzeTranscript, extractKeywordSegments, hb]
    cases c <;> rfl

/-- Witness for the amended C9: counts and per-category segment numbers
agree on the ASCII transcript talk. -/
theorem counts_match_segments_ascii_w :
    countOf Cat.language (analyzeTranscript (JsVal.str (enc "talk")))
      = ((extractKeywordSegments (JsVal.str (enc "talk"))).filter
          (fun g => g.category == Cat.language)).length :=
  counts_match_segments_ascii (enc "talk") (by decide) Cat.language

theorem any_nonspace_lower (s : List Nat) :
    ((s.map lowerChar).any fun c => !isSpaceCharB c) = (s.any fun c => !isSpaceCharB c) := by
  rw [List.any_map]
  apply congrArg
  funext c
  simp [Function.comp, isSpace_lower]

/-- CLAIM C3.  Matching is case-insensitive (lowering the input changes
no count), every located segment sits at word boundaries on both sides
(a keyword never matches inside a longer word), the transcript
"the cat sat" matches nothing, and the multi-word literature keyword
matches across arbitrary whitespace runs as one single match. -/
theorem matching_case_and_boundaries :
    (∀ s : List Nat,
      analyzeTranscript (JsVal.str (s.map lowerChar)) = analyzeTranscript (JsVal.str s))
    ∧ (∀ (s : List Nat) (g : Segment), g ∈ extractKeywordSegments (JsVal.str s) →
        isWordOpt (prevAt s g.startIndex) ≠ isWordOpt s[g.startIndex]?
        ∧ isWordOpt s[g.endIndex - 1]? ≠ isWordOpt s[g.endIndex]?)
    ∧ analyzeTranscript (JsVal.str (enc "the cat sat")) = ⟨0, 0, 0, 0⟩
    ∧ jsMatches (compile (enc "once upon a time")) (enc "once \t upon  a   time") = [(0, 21)]
    ∧ jsMatches (compile (enc "once upon a time")) (enc "once upon a time") = [(0, 16)] := by
  refine ⟨?_, ?_, by decide, by decide, by decide⟩
  · intro s
    simp only [analyzeTranscript, any_nonspace_lower, jsToLower_map_lower]
  · intro s g hg
    simp only [extractKeywordSegments] at hg
    split at hg
    case isFalse => simp at hg
    case isTrue =>
      simp only [List.mem_flatMap] at hg
      obtain ⟨cat, _, hseg⟩ := hg
      simp only [segsFor, List.mem_flatMap, List.mem_map] at hseg
      obtain ⟨k, _, m, hm, rfl⟩ := hseg
      obtain ⟨p, L⟩ := m
      have hma := scanFrom_mem _ s _ 0 p L hm
      exact ⟨(matchAt_some hma).2.1, (matchAt_some hma).2.2⟩

/-- Witness for C3: the single segment of the transcript "experiment"
has non-word (here: absent) neighbours on both sides. -/
theorem matching_case_and_boundaries_w :
    isWordOpt (prevAt (enc "experiment") 0) ≠ isWordOpt (enc "experiment")[0]?
    ∧ isWordOpt (enc "experiment")[10 - 1]? ≠ isWordOpt (enc "experiment")[10]? := by
  have h := matching_case_and_boundaries.2.1 (enc "experiment")
    ⟨enc "experiment", Cat.science, 0, 10⟩ (by decide)
  exact h

theorem pairwise_of_mem {α : Type} {R : α → α → Prop} :
    ∀ l : List α, (∀ a ∈ l, ∀ b ∈ l, R a b) → l.Pairwise R := by
  intro l
  induction l with
  | nil => intro _; exact List.Pairwise.nil
  | cons x xs ih =>
    intro h
    refine List.Pairwise.cons ?_ (ih fun a ha b hb =>
      h a (List.mem_cons_of_mem _ ha) b (List.mem_cons_of_mem _ hb))
    intro b hb
    exact h x (List.mem_cons_self ..) b (List.mem_cons_of_mem _ hb)

/-- The segment list is grouped by category in iteration order: the
category rank never decreases along the output. -/
theorem extract_rank_sorted (v : JsVal) :
    (extractKeywordSegments v).Pairwise
      (fun a b => catRank a.category ≤ catRank b.category) := by
  cases v with
  | nonStr => exact List.Pairwise.nil
  | str s =>
    simp only [extractKeywordSegments]
    split
    · simp only [catList, List.flatMap_cons, List.flatMap_nil, List.append_nil]
      have hmem : ∀ (cat : Cat) g, g ∈ segsFor cat s → catRank g.category = catRank cat :=
        fun cat g hg => by rw [segsFor_category hg]
      have hblock : ∀ cat : Cat, (segsFor cat s).Pairwise
          (fun a b => catRank a.category ≤ catRank b.category) := by
        intro cat
        refine pairwise_of_mem _ fun a ha b hb => ?_
        rw [hmem _ _ ha, hmem _ _ hb]
      refine List.pairwise_append.mpr ⟨hblock _, ?_, ?_⟩
      · refine List.pairwise_append.mpr ⟨hblock _, ?_, ?_⟩
        · refine List.pairwise_append.mpr ⟨hblock _, hblock _, ?_⟩
          intro a ha b hb
          rw [hmem _ _ ha, hmem _ _ hb]
          decide
        · intro a ha b hb
          rw [hmem _ _ ha]
          rcases List.mem_append.mp hb with hb | hb <;> rw [hmem _ _ hb] <;> decide
      · intro a ha b hb
        rw [hmem _ _ ha]
        exact Nat.zero_le _
    · exact List.Pairwise.nil

/-- CLAIM C6 (amended).  Every located segment carries exact offsets into
the original transcript (its text is the slice of the original between
its start and end, and end = start + text length); the output is grouped
by category in iteration order; matches of one keyword are in strictly
increasing position order; and the same matched text attributed to
several categories yields one preserved segment per category. -/
theorem segment_offsets_and_order :
    (∀ (s : List Nat) (g : Segment), g ∈ extractKeywordSegments (JsVal.str s) →
        g.text = (s.drop g.startIndex).take (g.endIndex - g.startIndex)
        ∧ g.startIndex + g.text.length = g.endIndex)
    ∧ (∀ v : JsVal, (extractKeywordSegments v).Pairwise
        (fun a b => catRank a.category ≤ catRank b.category))
    ∧ (∀ (pat : List PatElem) (t : List Nat),
        (jsMatches pat t).Pairwise (fun a b => a.1 < b.1))
    ∧ extractKeywordSegments (JsVal.str (enc "answer")) =
        [⟨enc "answer", Cat.science, 0, 6⟩, ⟨enc "answer", Cat.social, 0, 6⟩,
         ⟨enc "answer", Cat.language, 0, 6⟩] := by
  refine ⟨?_, extract_rank_sorted, jsMatches_sorted, by decide⟩
  intro s g hg
  simp only [extractKeywordSegments] at hg
  split at hg
  case isFalse => simp at hg
  case isTrue =>
    simp only [List.mem_flatMap] at hg
    obtain ⟨cat, _, hseg⟩ := hg
    simp only [segsFor, List.mem_flatMap, List.mem_map] at hseg
    obtain ⟨k, _, m, hm, rfl⟩ := hseg
    obtain ⟨p, L⟩ := m
    have hma := scanFrom_mem _ s _ 0 p L hm
    have hme := (matchAt_some hma).1
    have hle : L ≤ s.length - p := by
      have h2 := matchElems_le _ _ _ hme
      rwa [List.length_drop] at h2
    constructor
    · dsimp only
      rw [Nat.add_sub_cancel_left]
    · dsimp only
      rw [List.length_take, List.length_drop, min_eq_left hle]

/-- Witness for the amended C6: the offsets of the single segment of
the transcript "experiment" are exact. -/
theorem segment_offsets_and_order_w :
    (⟨enc "experiment", Cat.science, 0, 10⟩ : Segment).text
        = ((enc "experiment").drop 0).take (10 - 0)
    ∧ 0 + (⟨enc "experiment", Cat.science, 0, 10⟩ : Segment).text.length = 10 :=
  segment_offsets_and_order.1 (enc "experiment")
    ⟨enc "experiment", Cat.science, 0, 10⟩ (by decide)

/-- Counterexample to C6 as stated: on the transcript
"hypothesis experiment" both segments belong to science, yet the
experiment segment (start 11) precedes the hypothesis segment (start 0)
because keywords are visited in keyword-list order, so the output is not
ordered by position within a category. -/
theorem extract_order_counterexample :
    extractKeywordSegments (JsVal.str (enc "hypothesis experiment")) =
      [⟨enc "experiment", Cat.science, 11, 21⟩, ⟨enc "hypothesis", Cat.science, 0, 10⟩]
    ∧ ¬ (extractKeywordSegments (JsVal.str (enc "hypothesis experiment"))).Pairwise
        (fun a b => catRank a.category < catRank b.category
          ∨ (a.category = b.category ∧ a.startIndex ≤ b.startIndex)) := by
  exact ⟨by decide, by decide⟩

/-- CLAIM C10.  Duplicate entries inside one category list each count:
the single occurrence of magic scores 2 for literature (magic is listed
twice), and locate emits one segment per duplicate entry; likewise light
counts 2 for science and talk counts 2 for language while counting 1 for
social. -/
theorem duplicate_list_entries_count_twice :
    analyzeTranscript (JsVal.str (enc "magic")) = ⟨0, 0, 2, 0⟩
    ∧ extractKeywordSegments (JsVal.str (enc "magic")) =
        [⟨enc "magic", Cat.literature, 0, 5⟩, ⟨enc "magic", Cat.literature, 0, 5⟩]
    ∧ analyzeTranscript (JsVal.str (enc "light")) = ⟨2, 0, 0, 0⟩
    ∧ analyzeTranscript (JsVal.str (enc "talk")) = ⟨0, 1, 0, 2⟩ := by
  refine ⟨by decide, by decide, by decide, by decide⟩

end Bainum
